import Mathlib

/-!
# AgentGate — verification of the paywall core

Shallow embedding of the payment-gateway core of `ss251/agentgate`:

* `packages/core/src/utils.ts` — `parsePaymentHeader`, `buildPaymentRequirement`,
  `createPaymentMemo`;
* `packages/core/src/verify.ts` — `verifyPayment`;
* `packages/middleware/src/index.ts` — the `paywall` Hono middleware
  (the deployed variant, the one imported by `apps/gateway`);
* `packages/sdk/src/index.ts` — the retry loop of `AgentGateClient.fetch`
  and the header formatting of the settlement reference.

Strings are embedded as `List Char` (`Str`), so that the JavaScript string
operations the source uses (`split`, `slice`, `lastIndexOf`, `parseInt`,
`toLowerCase`, `startsWith`, `padEnd`, …) get exact executable definitions
that can be reasoned about by induction.  Arithmetic is exact: the source
manipulates JS `BigInt`s (modelled as `Int`/`Nat`) and decimal strings.
`keccak256` hashes are modelled as free constructors of an inductive type
(`HashV`), i.e. as a collision-free formal hash; no claim below depends on
concrete hash bytes.  Effects (the ledger RPC, the wall clock, the
`onPayment` hook, the downstream handler) are modelled by explicit
environment records and by an action trace, so that ordering properties of
one request's processing are statable.
-/

namespace AgentGate

/-- JavaScript strings, embedded as lists of characters. -/
abbrev Str := List Char

/-! ## Decimal digits and numerals -/

/-- Numeric value of a decimal digit character (JS `charCodeAt - 48`). -/
def digitVal (c : Char) : Nat := c.toNat - 48

/-- The digit character for `d < 10` (JS `String(d)` for a single digit). -/
def digitChar (d : Nat) : Char := Char.ofNat (48 + d)

/-- Value of a decimal digit string, most significant digit first
(the exact-integer semantics of JS `BigInt("…digits…")`; `BigInt("")` is `0n`). -/
def digitsVal (l : Str) : Nat := l.foldl (fun a c => a * 10 + digitVal c) 0

/-- Fuelled canonical decimal numeral (structural recursion so that the
kernel can evaluate it; `fuel > n` always suffices). -/
def decDigitsAux : Nat → Nat → Str
  | 0, _ => []
  | fuel + 1, n =>
    if n < 10 then [digitChar n] else decDigitsAux fuel (n / 10) ++ [digitChar (n % 10)]

/-- Canonical decimal numeral of a natural number, as produced by JS
string interpolation or `BigInt.prototype.toString` (no leading zeros,
`0 ↦ "0"`). -/
def decDigits (n : Nat) : Str := decDigitsAux (n + 1) n

/-- JS `BigInt.prototype.toString` for a signed integer. -/
def intToDecStr (v : Int) : Str :=
  if v < 0 then '-' :: decDigits v.natAbs else decDigits v.toNat

/-! ## JavaScript string primitives -/

/-- JS `String.prototype.split` with a single-character separator:
`"".split(c)` is `[""]`, and every occurrence of the separator splits,
with no collapsing of empty fields. -/
def jsSplit (sep : Char) : Str → List Str
  | [] => [[]]
  | c :: rest =>
    match jsSplit sep rest with
    | [] => [[]]
    | s :: ss => if c = sep then [] :: s :: ss else (c :: s) :: ss

/-- JS `s.startsWith('0x')`. -/
def startsWith0x : Str → Bool
  | '0' :: 'x' :: _ => true
  | _ => false

/-- JS `s.lastIndexOf(c)`, `none` for `-1`. -/
def jsLastIndexOf (c : Char) (l : Str) : Option Nat :=
  match (l.reverse).findIdx? (· = c) with
  | none => none
  | some i => some (l.length - 1 - i)

/-- ASCII lower-casing of one character (JS `toLowerCase` on the hex/address
alphabet actually used by the source). -/
def toLowerChar (c : Char) : Char :=
  if 'A' ≤ c ∧ c ≤ 'Z' then Char.ofNat (c.toNat + 32) else c

/-- JS `String.prototype.toLowerCase` (ASCII). -/
def jsToLower (s : Str) : Str := s.map toLowerChar

/-- Longest decimal-digit prefix, or `none` when it is empty — the digit
scan inside JS `parseInt`. -/
def parseDigitPrefix (s : Str) : Option Nat :=
  let ds := s.takeWhile Char.isDigit
  if ds.isEmpty then none else some (digitsVal ds)

/-- JS `parseInt(s, 10)`: skip leading whitespace, read an optional sign and
then the longest decimal-digit prefix, ignoring everything after it; `none`
models `NaN`.  Integers are exact here; the IEEE-double rounding JS applies
above 2^53 is not modelled (no claim exercises it). -/
def parseIntDec (s : Str) : Option Int :=
  match s.dropWhile Char.isWhitespace with
  | '-' :: rest => (parseDigitPrefix rest).map (fun n => -(n : Int))
  | '+' :: rest => (parseDigitPrefix rest).map (fun n => (n : Int))
  | rest => (parseDigitPrefix rest).map (fun n => (n : Int))

/-- JS `BigInt(string)` on a whitespace-trimmed decimal string: optional
sign followed by digits only, empty string is `0n`, anything else throws
(`none`).  The `0x`/`0o`/`0b` prefixes of `BigInt` are not modelled: the
program only ever converts decimal strings it produced itself. -/
def jsBigInt (s : Str) : Option Int :=
  let t := ((s.dropWhile Char.isWhitespace).reverse.dropWhile Char.isWhitespace).reverse
  match t with
  | [] => some 0
  | '-' :: ds => if ds ≠ [] ∧ ds.all Char.isDigit then some (-(digitsVal ds : Int)) else none
  | '+' :: ds => if ds ≠ [] ∧ ds.all Char.isDigit then some ((digitsVal ds : Int)) else none
  | ds => if ds.all Char.isDigit then some ((digitsVal ds : Int)) else none

/-! ## viem `parseUnits`

`buildPaymentRequirement` and the middleware scale human decimal amounts
with viem's `parseUnits(value, decimals)`.  viem is an external dependency;
the definition below is translated from its published source.  Its one
float-tainted step — `Math.round(Number(...))` on the digits cut off
beyond `decimals` — is modelled as exact decimal round-half-up, which
agrees with the double computation on every input the program can produce
(divergence would require ≳17 cut-off digits straddling a rounding
boundary). -/

/-- `integer.startsWith('-')`. -/
def jsStartsWithMinus : Str → Bool
  | [] => false
  | c :: _ => decide (c = '-')

/-- `integer.slice(1)` when the sign is present, the string otherwise. -/
def stripLeadingMinus (s : Str) : Str :=
  if jsStartsWithMinus s then s.drop 1 else s

/-- viem's `InvalidDecimalNumberError` guard: `^(-?)([0-9]*)\.?([0-9]*)$`. -/
def isDecimalNumberStr (s : Str) : Bool :=
  match jsSplit '.' (stripLeadingMinus s) with
  | [i] => i.all Char.isDigit
  | [i, f] => i.all Char.isDigit && f.all Char.isDigit
  | _ => false

/-- `fraction.replace(/(0+)$/, '')`. -/
def trimTrailingZeros (f : Str) : Str := (f.reverse.dropWhile (· = '0')).reverse

/-- `fraction.padEnd(decimals, '0')`. -/
def padEndZeros (f : Str) (d : Nat) : Str := f ++ List.replicate (d - f.length) '0'

/-- `s.padStart(w, '0')`. -/
def padStartZeros (s : Str) (w : Nat) : Str := List.replicate (w - s.length) '0' ++ s

/-- `Math.round(Number('.' + fraction))` for a digit string: `NaN → ≠ 1` on
empty input, else 1 exactly when `0.fraction ≥ 1/2`. -/
def roundsToOne : Str → Bool
  | [] => false
  | d :: _ => decide (5 ≤ digitVal d)

/-- `Math.round(Number(`${unit}.${right}`))` for a single digit `unit` and a
digit string `right` (round half up). -/
def roundHalfUp (unit : Nat) : Str → Nat
  | [] => unit
  | d :: _ => if 5 ≤ digitVal d then unit + 1 else unit

/-- viem `parseUnits(value, decimals)`: exact decimal scaling, rounding off
digits beyond `decimals`; `none` models the `InvalidDecimalNumberError`
throw on strings outside `^(-?)([0-9]*)\.?([0-9]*)$`. -/
def parseUnits (value : Str) (decimals : Nat) : Option Int :=
  if !(isDecimalNumberStr value) then none
  else
    let parts := jsSplit '.' value
    let integer0 := parts.getD 0 []
    let fraction0 := parts.getD 1 ['0']
    let negative := jsStartsWithMinus integer0
    let integer1 := stripLeadingMinus integer0
    let fraction1 := trimTrailingZeros fraction0
    let (integer2, fraction2) :=
      if decimals = 0 then
        (if roundsToOne fraction1 then decDigits (digitsVal integer1 + 1) else integer1, [])
      else if decimals < fraction1.length then
        let left := fraction1.take (decimals - 1)
        let unit := digitsVal ((fraction1.drop (decimals - 1)).take 1)
        let right := fraction1.drop decimals
        let rounded := roundHalfUp unit right
        let fractionA :=
          if 9 < rounded then padStartZeros (decDigits (digitsVal left + 1) ++ ['0']) (left.length + 1)
          else left ++ [digitChar rounded]
        let (integerB, fractionB) :=
          if decimals < fractionA.length then (decDigits (digitsVal integer1 + 1), fractionA.drop 1)
          else (integer1, fractionA)
        (integerB, fractionB.take decimals)
      else (integer1, padEndZeros fraction1 decimals)
    some ((digitsVal (integer2 ++ fraction2) : Int) * (if negative then -1 else 1))

/-! ## Protocol model (core/src/utils.ts) -/

/-- A 32-byte value as the program sees it: either a literal hex string or a
`keccak256` image, the hash being modelled as a free (collision-free)
constructor.  viem's `keccak256` returns lowercase hex, so hash values are
fixed points of lower-casing. -/
inductive HashV where
  | hexLit (s : Str)
  | kecStr (s : Str)
  | kecMemo (endpoint : Str) (bodyHash : HashV) (nonce : Str) (expiry : Nat)
deriving DecidableEq, Repr

/-- `'0x' + 64 zeros`, the `ZERO_MEMO` literal of `verify.ts` and the memo
the middleware puts in its rebuilt requirement. -/
def ZERO_MEMO : HashV := .hexLit ("0x0000000000000000000000000000000000000000000000000000000000000000".toList)

/-- JS truthiness of a memo value (a hex string is falsy only when empty). -/
def memoTruthy : HashV → Bool
  | .hexLit s => !s.isEmpty
  | _ => true

/-- `toLowerCase` on a 32-byte value (hash images are already lowercase). -/
def hashLower : HashV → HashV
  | .hexLit s => .hexLit (jsToLower s)
  | h => h

/-- `createPaymentMemo` from `packages/core/src/utils.ts`:
`keccak256(encodePacked(['string','bytes32','string','uint256'], [endpoint, bodyHash, nonce, expiry]))`. -/
def createPaymentMemo (endpoint : Str) (bodyHash : HashV) (nonce : Str) (expiry : Nat) : HashV :=
  .kecMemo endpoint bodyHash nonce expiry

/-- The stablecoin table of `packages/core/src/tokens.ts`. -/
inductive StablecoinSymbol where
  | pathUSD | alphaUSD | betaUSD | thetaUSD
deriving DecidableEq, Repr

structure TokenInfo where
  address : Str
  decimals : Nat
deriving DecidableEq, Repr

/-- `STABLECOINS` from `packages/core/src/tokens.ts`. -/
def STABLECOINS : StablecoinSymbol → TokenInfo
  | .pathUSD => { address := "0x20c0000000000000000000000000000000000000".toList, decimals := 6 }
  | .alphaUSD => { address := "0x20c0000000000000000000000000000000000001".toList, decimals := 6 }
  | .betaUSD => { address := "0x20c0000000000000000000000000000000000002".toList, decimals := 6 }
  | .thetaUSD => { address := "0x20c0000000000000000000000000000000000003".toList, decimals := 6 }

/-- The symbol as the string stored in `tokenSymbol`. -/
def symbolStr : StablecoinSymbol → Str
  | .pathUSD => "pathUSD".toList
  | .alphaUSD => "AlphaUSD".toList
  | .betaUSD => "BetaUSD".toList
  | .thetaUSD => "ThetaUSD".toList

/-- `PaymentRequirement` from `packages/core/src/verify.ts`. -/
structure PaymentRequirement where
  recipientAddress : Str
  tokenAddress : Str
  tokenSymbol : Str
  amountRequired : Str
  amountHuman : Str
  endpoint : Str
  nonce : Str
  expiry : Nat
  chainId : Nat
  memo : HashV
  description : Option Str
deriving DecidableEq, Repr

/-- `parsePaymentHeader` from `packages/core/src/utils.ts`:
splits the header on every `':'`, takes `parts[0]` as `txHash` and
`parseInt(parts[1], 10)` as `chainId`, and returns `null` when there are
fewer than two parts, the hash does not start with `0x`, or the chainId
is `NaN`. -/
def parsePaymentHeader (header : Str) : Option (Str × Int) :=
  match jsSplit ':' header with
  | txHash :: p1 :: _ =>
    match parseIntDec p1 with
    | none => none
    | some chainId => if startsWith0x txHash then some (txHash, chainId) else none
  | _ => none

/-- The client-side settlement header encoding from
`packages/sdk/src/index.ts`: `` `${txHash}:${this.chain.id}` ``
(the chain id is a nonnegative integer). -/
def formatPaymentHeader (txHash : Str) (chainId : Nat) : Str :=
  txHash ++ ':' :: decDigits chainId

/-- `buildPaymentRequirement` from `packages/core/src/utils.ts`.  The result
is `none` exactly when viem's `parseUnits` throws on the amount string; the
function itself performs no validation of its own. -/
def buildPaymentRequirement (recipientAddress : Str) (token : StablecoinSymbol)
    (amount : Str) (endpoint : Str) (nonce : Str) (expiry : Nat) (chainId : Nat)
    (description : Option Str) : Option PaymentRequirement :=
  let tokenInfo := STABLECOINS token
  (parseUnits amount tokenInfo.decimals).map fun scaled =>
    { recipientAddress := recipientAddress
      tokenAddress := tokenInfo.address
      tokenSymbol := symbolStr token
      amountRequired := intToDecStr scaled
      amountHuman := amount
      endpoint := endpoint
      nonce := nonce
      expiry := expiry
      chainId := chainId
      memo := createPaymentMemo endpoint (.kecStr nonce) nonce expiry
      description := description }

/-! ## Ledger model and verifier (core/src/verify.ts) -/

/-- What `decodeEventLog` can make of one receipt log record: a plain
`Transfer(from,to,value)`, a `TransferWithMemo(from,to,value,memo)`, or
something that decodes as neither. -/
inductive LogEvent where
  | transfer (sender receiver : Str) (value : Nat)
  | transferWithMemo (sender receiver : Str) (value : Nat) (memo : HashV)
  | other
deriving DecidableEq, Repr

structure Log where
  address : Str
  logIndex : Nat
  event : LogEvent
deriving DecidableEq, Repr

structure Receipt where
  statusSuccess : Bool
  blockNumber : Nat
  logs : List Log
deriving DecidableEq, Repr

/-- The failure cases of `verifyPayment` (`error` strings narrowed to their
cases; `caughtError` is the outer `catch` that wraps every thrown
exception — RPC failure, missing receipt, decode throw, `BigInt` throw —
as `Verification failed: …`). -/
inductive VerifyError where
  | expired | txReverted | noMatchingTransfer | insufficient | memoMismatch | caughtError
deriving DecidableEq, Repr

/-- `PaymentVerification` from `packages/core/src/verify.ts`. -/
structure PaymentVerification where
  valid : Bool
  error : Option VerifyError := none
  fromAddr : Option Str := none
  toAddr : Option Str := none
  amount : Option Nat := none
  txHash : Option Str := none
  blockNumber : Option Nat := none
deriving DecidableEq, Repr

/-- The predicate of the first `receipt.logs.find(...)` in `verifyPayment`:
emitter is the required token contract and the log decodes as a
`TransferWithMemo` whose `to` equals the required recipient
(case-insensitively). -/
def isMemoCandidate (req : PaymentRequirement) (log : Log) : Bool :=
  jsToLower log.address = jsToLower req.tokenAddress &&
    match log.event with
    | .transferWithMemo _ receiver _ _ => jsToLower receiver = jsToLower req.recipientAddress
    | _ => false

/-- The predicate of the fallback `receipt.logs.find(...)`: emitter is the
token contract and the log decodes as a plain `Transfer` to the required
recipient. -/
def isTransferCandidate (req : PaymentRequirement) (log : Log) : Bool :=
  jsToLower log.address = jsToLower req.tokenAddress &&
    match log.event with
    | .transfer _ receiver _ => jsToLower receiver = jsToLower req.recipientAddress
    | _ => false

/-- The log `verifyPayment` settles on: the first `TransferWithMemo`
candidate if any exists, else the first plain `Transfer` candidate. -/
def selectPaymentLog (req : PaymentRequirement) (logs : List Log) : Option Log :=
  match logs.find? (isMemoCandidate req) with
  | some log => some log
  | none => logs.find? (isTransferCandidate req)

/-- `params.requirement.memo && params.requirement.memo !== ZERO_MEMO`
(`verify.ts:74`): a memo is required when truthy and not all-zero. -/
def hasMemoRequirement (memo : HashV) : Bool :=
  memoTruthy memo && !(memo = ZERO_MEMO : Bool)

/-- The tail of `verifyPayment` shared by both decode paths: the amount
check against `BigInt(requirement.amountRequired)`, then the memo check
(`hasMemoRequirement && onChainMemo` guarding the mismatch failure), then
the success record. -/
def finishVerification (req : PaymentRequirement) (txHash : Str) (blockNumber : Nat)
    (sender receiver : Str) (value : Nat) (onChainMemo : Option HashV) : PaymentVerification :=
  match jsBigInt req.amountRequired with
  | none => { valid := false, error := some .caughtError }
  | some requiredAmount =>
    if (value : Int) < requiredAmount then
      { valid := false, error := some .insufficient, fromAddr := some sender,
        toAddr := some receiver, amount := some value, txHash := some txHash,
        blockNumber := some blockNumber }
    else
      let memoMismatch :=
        match onChainMemo with
        | some m => hasMemoRequirement req.memo && memoTruthy m &&
            !(hashLower m = hashLower req.memo : Bool)
        | none => false
      if memoMismatch then
        { valid := false, error := some .memoMismatch, fromAddr := some sender,
          toAddr := some receiver, amount := some value, txHash := some txHash,
          blockNumber := some blockNumber }
      else
        { valid := true, fromAddr := some sender, toAddr := some receiver,
          amount := some value, txHash := some txHash, blockNumber := some blockNumber }

/-- `verifyPayment` from `packages/core/src/verify.ts`.  `nowMs` is
`Date.now()`; `getReceipt` is the ledger RPC, `none` meaning the
`getTransactionReceipt` call threw (unknown hash or RPC failure), which the
outer `catch` turns into a generic verification error. -/
def verifyPayment (nowMs : Nat) (getReceipt : Str → Option Receipt)
    (txHash : Str) (req : PaymentRequirement) : PaymentVerification :=
  if req.expiry * 1000 < nowMs then
    { valid := false, error := some .expired }
  else
    match getReceipt txHash with
    | none => { valid := false, error := some .caughtError }
    | some receipt =>
      if !receipt.statusSuccess then
        { valid := false, error := some .txReverted, txHash := some txHash }
      else
        match selectPaymentLog req receipt.logs with
        | none =>
          { valid := false, error := some .noMatchingTransfer, txHash := some txHash,
            blockNumber := some receipt.blockNumber }
        | some log =>
          match log.event with
          | .transferWithMemo s r v m =>
            finishVerification req txHash receipt.blockNumber s r v (some m)
          | .transfer s r v =>
            finishVerification req txHash receipt.blockNumber s r v none
          | .other => { valid := false, error := some .caughtError }

/-! ## Paywall middleware (packages/middleware/src/index.ts) -/

structure EndpointPricing where
  amount : Str
  description : Option Str
deriving DecidableEq, Repr

/-- The middleware construction options (the `usedTxHashes` set is
threaded explicitly as request-processing state; `hasOnPayment` records
whether an `onPayment` hook was supplied). -/
structure PaywallOptions where
  recipientAddress : Str
  token : StablecoinSymbol
  pricing : List (Str × EndpointPricing)
  expirySeconds : Nat
  chainId : Nat
  hasOnPayment : Bool
deriving DecidableEq, Repr

/-- One HTTP request as the middleware sees it. -/
structure Request where
  method : Str
  path : Str
  paymentHeader : Option Str
deriving DecidableEq, Repr

/-- The per-request environment: the wall clock (one instant per request —
`Math.floor(Date.now()/1000)` is `nowSec` and `Date.now()` inside the
verifier is `nowSec * 1000`), the generated nonce, the ledger, and whether
the configured hook throws when invoked. -/
structure MwEnv where
  nowSec : Nat
  nonce : Str
  getReceipt : Str → Option Receipt
  hookThrows : Bool

/-- Exact-match pricing lookup (`pricing[key]` on a JS record). -/
def lookupPricing (pricing : List (Str × EndpointPricing)) (key : Str) : Option EndpointPricing :=
  (pricing.find? (fun p => p.1 = key)).map (·.2)

/-- The `instructions` object of the 402 body. -/
structure ChallengeInstructions where
  header : Str
  format : Str
  steps : List Str
deriving DecidableEq, Repr

/-- The 402 body: `{ error, payment, instructions }`. -/
structure ChallengeBody where
  error : Str
  payment : PaymentRequirement
  instructions : ChallengeInstructions
deriving DecidableEq, Repr

/-- What the middleware hands back for one request.  `headers` on
`challenge` are the custom response headers the middleware sets beyond the
JSON content type (the third argument of Hono's `c.json`, absent in the
source).  `raised` is an exception escaping the middleware (a throwing
hook, or a throwing `parseUnits` on a misconfigured price). -/
inductive MwResponse where
  | passThrough
  | challenge (body : ChallengeBody) (status : Nat) (headers : List (Str × Str))
  | invalidHeader (status : Nat)
  | replayRejected (status : Nat)
  | verificationFailed (status : Nat) (detail : Option VerifyError)
  | admitted (payment : PaymentVerification)
  | raised
deriving DecidableEq, Repr

/-- The observable side effects of one request, in program order. -/
inductive MwAction where
  | insertUsed (txHash : Str)
  | invokeHook (fromAddr : Str) (amount : Nat) (txHash : Str) (endpoint : Str)
  | invokeNext
deriving DecidableEq, Repr

structure MwResult where
  response : MwResponse
  trace : List MwAction
  usedAfter : List Str
deriving DecidableEq, Repr

/-- `Set.prototype.add` on the used-reference set. -/
def setAdd (used : List Str) (tx : Str) : List Str :=
  if tx ∈ used then used else used ++ [tx]

/-- The inline header parse of the middleware (`paymentHeader.lastIndexOf(':')`,
`slice` both sides, `parseInt` the chain id, check the `0x` prefix) — note
this splits on the *last* colon, unlike `parsePaymentHeader` in utils. -/
def paywallParseHeader (h : Str) : Option (Str × Int) :=
  match jsLastIndexOf ':' h with
  | none => none
  | some idx =>
    let txHash := h.take idx
    match parseIntDec (h.drop (idx + 1)) with
    | none => none
    | some chainId => if startsWith0x txHash then some (txHash, chainId) else none

/-- The requirement the middleware rebuilds for verification (fresh
`expiry = now + expirySeconds`, empty nonce, all-zero memo). -/
def middlewareRequirement (opts : PaywallOptions) (nowSec : Nat) (key : Str)
    (price : EndpointPricing) : Option PaymentRequirement :=
  let tokenInfo := STABLECOINS opts.token
  (parseUnits price.amount tokenInfo.decimals).map fun scaled =>
    { recipientAddress := opts.recipientAddress
      tokenAddress := tokenInfo.address
      tokenSymbol := symbolStr opts.token
      amountRequired := intToDecStr scaled
      amountHuman := price.amount
      endpoint := key
      nonce := []
      expiry := nowSec + opts.expirySeconds
      chainId := opts.chainId
      memo := ZERO_MEMO
      description := none }

/-- The `paywall` middleware of `packages/middleware/src/index.ts`, as a
function of the options, the per-request environment, the current
used-reference set and the request. -/
def paywall (opts : PaywallOptions) (env : MwEnv) (used : List Str) (r : Request) : MwResult :=
  let key := r.method ++ ' ' :: r.path
  match lookupPricing opts.pricing key with
  | none => { response := .passThrough, trace := [.invokeNext], usedAfter := used }
  | some price =>
    match r.paymentHeader with
    | none =>
      let expiry := env.nowSec + opts.expirySeconds
      match buildPaymentRequirement opts.recipientAddress opts.token price.amount
          key env.nonce expiry opts.chainId price.description with
      | none => { response := .raised, trace := [], usedAfter := used }
      | some requirement =>
        { response := .challenge
            { error := "Payment Required".toList
              payment := requirement
              instructions :=
                { header := "X-Payment".toList
                  format := "<txHash>:<chainId>".toList
                  steps :=
                    [ "Transfer ".toList ++ price.amount ++ ' ' :: symbolStr opts.token ++
                        " to ".toList ++ opts.recipientAddress,
                      "Include the tx hash in X-Payment header as txHash:chainId".toList,
                      "Retry the original request".toList ] } }
            402 [],
          trace := [], usedAfter := used }
    | some header =>
      match paywallParseHeader header with
      | none => { response := .invalidHeader 400, trace := [], usedAfter := used }
      | some (txHash, _chainId) =>
        if txHash ∈ used then
          { response := .replayRejected 409, trace := [], usedAfter := used }
        else
          match middlewareRequirement opts env.nowSec key price with
          | none => { response := .raised, trace := [], usedAfter := used }
          | some vreq =>
            let verification := verifyPayment (env.nowSec * 1000) env.getReceipt txHash vreq
            if !verification.valid then
              { response := .verificationFailed 402 verification.error,
                trace := [], usedAfter := used }
            else
              let used1 := setAdd used txHash
              match (if opts.hasOnPayment then verification.fromAddr else none) with
              | some fromA =>
                if env.hookThrows then
                  { response := .raised,
                    trace := [.insertUsed txHash,
                              .invokeHook fromA (verification.amount.getD 0) txHash key],
                    usedAfter := used1 }
                else
                  { response := .admitted verification,
                    trace := [.insertUsed txHash,
                              .invokeHook fromA (verification.amount.getD 0) txHash key,
                              .invokeNext],
                    usedAfter := used1 }
              | none =>
                { response := .admitted verification,
                  trace := [.insertUsed txHash, .invokeNext],
                  usedAfter := used1 }

/-! ## Client settlement engine: the retry loop of `AgentGateClient.fetch`
(packages/sdk/src/index.ts) -/

/-- What one iteration's `try` block comes to: a returned response (either
the non-402 first answer or the post-payment retry response, returned
regardless of its status), or a thrown error with its message. -/
inductive SdkAttempt where
  | success (status : Nat)
  | thrown (msg : Str)
deriving DecidableEq, Repr

/-- The environment of one `fetch` call: the wall clock at the top of each
iteration and the outcome of each iteration's body. -/
structure FetchEnv where
  nowAt : Nat → Nat
  attemptResult : Nat → SdkAttempt

/-- Observable retry events (`emit({type:'retrying', attempt: attempt+1,…})`
followed by the backoff sleep). -/
inductive SdkEvent where
  | retrying (attempt : Nat) (reason : Str)
  | sleep (ms : Nat)
deriving DecidableEq, Repr

inductive SdkOutcome where
  | returned (status : Nat)
  | timedOut
  | raised (msg : Str)
  | exhausted
deriving DecidableEq, Repr

/-- The non-retryable classification:
`err.message.includes('Insufficient balance') || err.message.includes('Invalid 402')`. -/
def isNonRetryableMsg (msg : Str) : Bool :=
  decide (("Insufficient balance".toList) <:+: msg) || decide (("Invalid 402".toList) <:+: msg)

/-- The backoff delay: `Math.min(1000 * 2 ** attempt, 10000)`. -/
def retryDelay (attempt : Nat) : Nat := min (1000 * 2 ^ attempt) 10000

/-- The body of `AgentGateClient.fetch`'s retry loop, structurally recursive
on the number of remaining iterations (`maxRetries + 1 - attempt`). -/
def fetchLoopAux (env : FetchEnv) (deadline maxRetries : Nat) :
    Nat → Nat → SdkOutcome × List SdkEvent
  | 0, _ => (.exhausted, [])
  | remaining + 1, attempt =>
    if deadline < env.nowAt attempt then (.timedOut, [])
    else
      match env.attemptResult attempt with
      | .success s => (.returned s, [])
      | .thrown m =>
        if isNonRetryableMsg m || decide (maxRetries ≤ attempt) then (.raised m, [])
        else
          let rest := fetchLoopAux env deadline maxRetries remaining (attempt + 1)
          (rest.1, .retrying (attempt + 1) m :: .sleep (retryDelay attempt) :: rest.2)

/-- `AgentGateClient.fetch`'s control flow (`for attempt = 0 … maxRetries`,
deadline check, try body, classification, backoff). -/
def sdkFetch (maxRetries deadline : Nat) (env : FetchEnv) : SdkOutcome × List SdkEvent :=
  fetchLoopAux env deadline maxRetries (maxRetries + 1) 0

/-- The backoff sleeps of a run, in order. -/
def sleepsOf (events : List SdkEvent) : List Nat :=
  events.filterMap fun e => match e with | .sleep ms => some ms | _ => none

/-! ## Well-formed settlement headers (for the round-trip claim) -/

def isHexDigitChar (c : Char) : Bool :=
  c.isDigit || (decide ('a' ≤ c) && decide (c ≤ 'f')) || (decide ('A' ≤ c) && decide (c ≤ 'F'))

/-- A well-formed settlement header: a `0x`-prefixed nonempty hex string, a
colon, and a canonical decimal chain id. -/
def wellFormedHeader (h : Str) : Prop :=
  ∃ hx n, hx ≠ [] ∧ (∀ c ∈ hx, isHexDigitChar c) ∧
    h = ('0' :: 'x' :: hx) ++ ':' :: decDigits n

/-- The custom response headers of a 402 challenge, `none` when the
response is not a challenge. -/
def challengeHeaders : MwResponse → Option (List (Str × Str))
  | .challenge _ _ headers => some headers
  | _ => none

/-! ## A concrete scenario (for witnesses and counterexamples)

The configuration of `tests/unit/middleware.test.ts` (pathUSD, price
`0.01`, recipient `0x00DfEe…`), one receipt with a single matching
`Transfer` of 10000 smallest units, and a paid request carrying
`X-Payment: 0xdeadbeef:42431`. -/

def optsX : PaywallOptions :=
  { recipientAddress := "0x00DfEe79B7fd7aEF0312E06da8E1d60a5957F9Cf".toList
    token := .pathUSD
    pricing := [("POST /api/paid".toList,
      { amount := "0.01".toList, description := some ("Paid endpoint".toList) })]
    expirySeconds := 300
    chainId := 42431
    hasOnPayment := true }

def rcptX : Receipt :=
  { statusSuccess := true
    blockNumber := 100
    logs := [{ address := "0x20c0000000000000000000000000000000000000".toList
               logIndex := 0
               event := .transfer ("0xSender".toList)
                 ("0x00dfee79b7fd7aef0312e06da8e1d60a5957f9cf".toList) 10000 }] }

def envX : MwEnv :=
  { nowSec := 1700000000
    nonce := "uuid-1".toList
    getReceipt := fun tx => if tx = "0xdeadbeef".toList then some rcptX else none
    hookThrows := false }

/-- `envX` with a hook that throws. -/
def envXT : MwEnv :=
  { nowSec := 1700000000
    nonce := "uuid-1".toList
    getReceipt := fun tx => if tx = "0xdeadbeef".toList then some rcptX else none
    hookThrows := true }

def reqPaid : Request :=
  { method := "POST".toList, path := "/api/paid".toList
    paymentHeader := some ("0xdeadbeef:42431".toList) }

def reqNoHdr : Request :=
  { method := "POST".toList, path := "/api/paid".toList, paymentHeader := none }

/-- The verification record of the scenario's admitted request. -/
def verX : PaymentVerification :=
  { valid := true
    fromAddr := some ("0xSender".toList)
    toAddr := some ("0x00dfee79b7fd7aef0312e06da8e1d60a5957f9cf".toList)
    amount := some 10000
    txHash := some ("0xdeadbeef".toList)
    blockNumber := some 100 }

/-- A receipt whose only matching transfer underpays (5 < 10000 units). -/
def rcptLow : Receipt :=
  { statusSuccess := true
    blockNumber := 100
    logs := [{ address := "0x20c0000000000000000000000000000000000000".toList
               logIndex := 0
               event := .transfer ("0xSender".toList)
                 ("0x00dfee79b7fd7aef0312e06da8e1d60a5957f9cf".toList) 5 }] }

/-- `envX` with the underpaying receipt. -/
def envLow : MwEnv :=
  { nowSec := 1700000000
    nonce := "uuid-1".toList
    getReceipt := fun tx => if tx = "0xdeadbeef".toList then some rcptLow else none
    hookThrows := false }

/-- The requirement the middleware rebuilds in the scenario. -/
def vreqX : PaymentRequirement :=
  { recipientAddress := "0x00DfEe79B7fd7aEF0312E06da8E1d60a5957F9Cf".toList
    tokenAddress := "0x20c0000000000000000000000000000000000000".toList
    tokenSymbol := "pathUSD".toList
    amountRequired := "10000".toList
    amountHuman := "0.01".toList
    endpoint := "POST /api/paid".toList
    nonce := []
    expiry := 1700000000 + 300
    chainId := 42431
    memo := ZERO_MEMO
    description := none }

/-- A receipt holding a matching plain `Transfer` at index 0 and a matching
`TransferWithMemo` at index 1 (for the tie-break claim). -/
def rcptM : Receipt :=
  { statusSuccess := true
    blockNumber := 101
    logs := [{ address := "0x20c0000000000000000000000000000000000000".toList
               logIndex := 0
               event := .transfer ("0xA".toList)
                 ("0x00dfee79b7fd7aef0312e06da8e1d60a5957f9cf".toList) 10000 },
             { address := "0x20c0000000000000000000000000000000000000".toList
               logIndex := 1
               event := .transferWithMemo ("0xB".toList)
                 ("0x00dfee79b7fd7aef0312e06da8e1d60a5957f9cf".toList) 10000
                 (.hexLit ("0xdddd".toList)) }] }

/-- A fetch environment that fails twice with a network error and then
succeeds. -/
def envF : FetchEnv :=
  { nowAt := fun _ => 0
    attemptResult := fun k => if k < 2 then .thrown ("network error".toList) else .success 200 }

/-- The requirement the scenario's 402 challenge carries. -/
def reqmtX : PaymentRequirement :=
  { recipientAddress := "0x00DfEe79B7fd7aEF0312E06da8E1d60a5957F9Cf".toList
    tokenAddress := "0x20c0000000000000000000000000000000000000".toList
    tokenSymbol := "pathUSD".toList
    amountRequired := "10000".toList
    amountHuman := "0.01".toList
    endpoint := "POST /api/paid".toList
    nonce := "uuid-1".toList
    expiry := 1700000000 + 300
    chainId := 42431
    memo := .kecMemo ("POST /api/paid".toList) (.kecStr ("uuid-1".toList)) ("uuid-1".toList) (1700000000 + 300)
    description := some ("Paid endpoint".toList) }

/-! ## Auxiliary lemmas -/

theorem digitsVal_foldl (l : Str) : ∀ a : Nat,
    l.foldl (fun a c => a * 10 + digitVal c) a = a * 10 ^ l.length + digitsVal l := by
  induction l with
  | nil => intro a; simp [digitsVal]
  | cons c bs ih =>
    intro a
    have hv : digitsVal (c :: bs) = digitVal c * 10 ^ bs.length + digitsVal bs := by
      simp only [digitsVal, List.foldl_cons]
      rw [ih (0 * 10 + digitVal c)]
      simp only [digitsVal]
      ring
    simp only [List.foldl_cons]
    rw [ih (a * 10 + digitVal c), hv]
    simp [List.length_cons, pow_succ]
    ring

theorem digitsVal_append (a b : Str) :
    digitsVal (a ++ b) = digitsVal a * 10 ^ b.length + digitsVal b := by
  simp only [digitsVal, List.foldl_append]
  rw [digitsVal_foldl b]
  rfl

theorem digitVal_digitChar {d : Nat} (h : d < 10) : digitVal (digitChar d) = d := by
  interval_cases d <;> rfl

theorem digitChar_isDigit {d : Nat} (h : d < 10) : (digitChar d).isDigit := by
  interval_cases d <;> rfl

theorem decDigitsAux_fuel {n : Nat} : ∀ (f1 f2 : Nat), n < f1 → n < f2 →
    decDigitsAux f1 n = decDigitsAux f2 n := by
  induction n using Nat.strong_induction_on with
  | _ n ih =>
    intro f1 f2 h1 h2
    match f1, f2 with
    | g1 + 1, g2 + 1 =>
      rw [decDigitsAux, decDigitsAux]
      by_cases hn : n < 10
      · rw [if_pos hn, if_pos hn]
      · rw [if_neg hn, if_neg hn]
        have hd : n / 10 < n := Nat.div_lt_self (by omega) (by omega)
        rw [ih (n / 10) hd g1 g2 (by omega) (by omega)]

/-- The recursion equation of `decDigits`, fuel eliminated. -/
theorem decDigits_eq (n : Nat) :
    decDigits n = if n < 10 then [digitChar n] else decDigits (n / 10) ++ [digitChar (n % 10)] := by
  rw [decDigits, decDigitsAux]
  by_cases hn : n < 10
  · rw [if_pos hn, if_pos hn]
  · rw [if_neg hn, if_neg hn, decDigits]
    have hd : n / 10 < n := Nat.div_lt_self (by omega) (by omega)
    rw [decDigitsAux_fuel n (n / 10 + 1) (by omega) (by omega)]

theorem digitsVal_decDigits (n : Nat) : digitsVal (decDigits n) = n := by
  induction n using Nat.strong_induction_on with
  | _ n ih =>
    rw [decDigits_eq]
    by_cases h : n < 10
    · rw [if_pos h]
      simp [digitsVal, digitVal_digitChar h]
    · rw [if_neg h]
      rw [digitsVal_append, ih (n / 10) (Nat.div_lt_self (by omega) (by omega))]
      simp [digitsVal, digitVal_digitChar (Nat.mod_lt n (by omega))]
      omega

theorem decDigits_all_digits (n : Nat) : ∀ c ∈ decDigits n, c.isDigit := by
  induction n using Nat.strong_induction_on with
  | _ n ih =>
    rw [decDigits_eq]
    by_cases h : n < 10
    · rw [if_pos h]
      intro c hc
      simp at hc
      subst hc
      exact digitChar_isDigit h
    · rw [if_neg h]
      intro c hc
      rcases List.mem_append.mp hc with h1 | h1
      · exact ih (n / 10) (Nat.div_lt_self (by omega) (by omega)) c h1
      · simp at h1
        subst h1
        exact digitChar_isDigit (Nat.mod_lt n (by omega))

theorem decDigits_ne_nil (n : Nat) : decDigits n ≠ [] := by
  rw [decDigits_eq]
  by_cases h : n < 10 <;> simp [h]

theorem jsSplit_ne_nil (sep : Char) (l : Str) : jsSplit sep l ≠ [] := by
  cases l with
  | nil => simp [jsSplit]
  | cons c rest =>
    rw [jsSplit]
    rcases h : jsSplit sep rest with _ | ⟨s, ss⟩
    · simp
    · by_cases hc : c = sep <;> simp [hc]

/-- A string without the separator splits into the single field. -/
theorem jsSplit_no_sep {sep : Char} {l : Str} (h : sep ∉ l) : jsSplit sep l = [l] := by
  induction l with
  | nil => rfl
  | cons c rest ih =>
    rw [jsSplit]
    have hc : c ≠ sep := fun hcc => h (hcc ▸ List.mem_cons_self c rest)
    rw [ih (fun hm => h (List.mem_cons_of_mem c hm))]
    simp [hc]

/-- Splitting at the first separator occurrence. -/
theorem jsSplit_append_sep {sep : Char} {a : Str} (b : Str) (h : sep ∉ a) :
    jsSplit sep (a ++ sep :: b) = a :: jsSplit sep b := by
  induction a with
  | nil =>
    rw [List.nil_append, jsSplit]
    rcases hb : jsSplit sep b with _ | ⟨s, ss⟩
    · exact absurd hb (jsSplit_ne_nil sep b)
    · simp
  | cons c rest ih =>
    have hc : c ≠ sep := fun hcc => h (hcc ▸ List.mem_cons_self c rest)
    rw [List.cons_append, jsSplit, ih (fun hm => h (List.mem_cons_of_mem c hm))]
    simp [hc]

theorem takeWhile_all {p : Char → Bool} {l : Str} (h : ∀ c ∈ l, p c) :
    l.takeWhile p = l := by
  induction l with
  | nil => rfl
  | cons c rest ih =>
    rw [List.takeWhile_cons, if_pos (h c (List.mem_cons_self c rest))]
    rw [ih (fun x hx => h x (List.mem_cons_of_mem c hx))]

theorem dropWhile_none {p : Char → Bool} {l : Str} (h : ∀ c ∈ l, ¬ p c) :
    l.dropWhile p = l := by
  cases l with
  | nil => rfl
  | cons c rest =>
    rw [List.dropWhile_cons]
    simp [h c (List.mem_cons_self c rest)]

/-- `parseInt` on a pure digit string returns its exact value. -/
theorem parseIntDec_digits {l : Str} (hne : l ≠ []) (hd : ∀ c ∈ l, c.isDigit) :
    parseIntDec l = some ((digitsVal l : Nat) : Int) := by
  rcases l with _ | ⟨c, cs⟩
  · exact absurd rfl hne
  · have hc : c.isDigit := hd c (List.mem_cons_self c cs)
    have hw : ∀ x ∈ c :: cs, ¬ Char.isWhitespace x := by
      intro x hx hwx
      have hdx := hd x hx
      simp [Char.isWhitespace] at hwx
      rcases hwx with ((h | h) | h) | h <;> (subst h; exact absurd hdx (by decide))
    rw [parseIntDec, dropWhile_none hw]
    have hcm : c ≠ '-' := by
      intro hcc; subst hcc; exact absurd hc (by decide)
    have hcp : c ≠ '+' := by
      intro hcc; subst hcc; exact absurd hc (by decide)
    have htw : (c :: cs).takeWhile Char.isDigit = c :: cs := takeWhile_all hd
    split
    · next heq => exact absurd (List.cons.injEq .. ▸ heq).1 hcm
    · next heq => exact absurd (List.cons.injEq .. ▸ heq).1 hcp
    · rw [parseDigitPrefix]
      simp only [htw]
      simp

/-- A successful `find?` splits the list at the first match. -/
theorem find?_split {α : Type} {p : α → Bool} {l : List α} {a : α}
    (h : l.find? p = some a) :
    ∃ l1 l2, l = l1 ++ a :: l2 ∧ p a = true ∧ ∀ b ∈ l1, p b = false := by
  induction l with
  | nil => simp [List.find?] at h
  | cons c rest ih =>
    rw [List.find?] at h
    by_cases hc : p c = true
    · rw [hc] at h
      simp at h
      subst h
      exact ⟨[], rest, rfl, hc, by simp⟩
    · rw [Bool.not_eq_true] at hc
      rw [hc] at h
      obtain ⟨l1, l2, hsplit, hpa, hl1⟩ := ih h
      exact ⟨c :: l1, l2, by rw [hsplit]; rfl, hpa, by
        intro b hb
        rcases List.mem_cons.mp hb with hb | hb
        · subst hb; exact hc
        · exact hl1 b hb⟩

/-! ## Claim C5: `parsePaymentHeader`'s split and chainId validation -/

/-- C5, counterexample to the claim as stated.  The claim says any
non-decimal chainId string yields `None`; but `parseInt` only needs a digit
prefix, so `"0xabc:12foo"` — whose chainId part `"12foo"` is not a decimal
unsigned integer — parses to `(0xabc, 12)` instead of `None`. -/
theorem C5_counterexample :
    parsePaymentHeader ("0xabc:12foo".toList) = some ("0xabc".toList, 12) ∧
      ¬ (("12foo".toList).all Char.isDigit) := by
  exact ⟨by decide, by decide⟩

/-- C5 as amended: `parsePaymentHeader` splits the header on every colon
and uses the first two fields — `txHash` is the text before the *first*
colon (not the last), and `chainId` is JS `parseInt` of the field between
the first and second colons, which ignores trailing non-digits.  It
returns `None` exactly when the header has no colon, the first field does
not start with `0x`, or `parseInt` of the second field is `NaN`. -/
theorem C5_parsePaymentHeader_amended (a b : Str) (ha : ':' ∉ a) :
    (parsePaymentHeader (a ++ ':' :: b) = none ↔
      startsWith0x a = false ∨ parseIntDec ((jsSplit ':' b).headI) = none) ∧
    (∀ tx c, parsePaymentHeader (a ++ ':' :: b) = some (tx, c) →
      tx = a ∧ startsWith0x a = true ∧ parseIntDec ((jsSplit ':' b).headI) = some c) ∧
    (∀ h : Str, ':' ∉ h → parsePaymentHeader h = none) := by
  have hsplit : jsSplit ':' (a ++ ':' :: b) = a :: jsSplit ':' b := jsSplit_append_sep b ha
  rcases hb : jsSplit ':' b with _ | ⟨s, ss⟩
  · exact absurd hb (jsSplit_ne_nil ':' b)
  · rw [hb] at hsplit
    refine ⟨?_, ?_, ?_⟩
    · rw [parsePaymentHeader, hsplit]
      rcases hpi : parseIntDec s with _ | ci
      · simp [hpi, List.headI]
      · rcases hsw : startsWith0x a with _ | _ <;> simp [hpi, hsw, List.headI]
    · intro tx c htx
      rw [parsePaymentHeader, hsplit] at htx
      rcases hpi : parseIntDec s with _ | ci
      · simp [hpi] at htx
      · rcases hsw : startsWith0x a with _ | _
        · simp [hpi, hsw] at htx
        · simp [hpi, hsw] at htx
          obtain ⟨h1, h2⟩ := htx
          exact ⟨h1.symm, rfl, by simp [List.headI, hpi, h2]⟩
    · intro h hh
      rw [parsePaymentHeader, jsSplit_no_sep hh]

/-- C5 witness: the amended characterization applied at the counterexample
header `"0xabc" ++ ":" ++ "12foo"`. -/
theorem C5_amended_witness :
    parsePaymentHeader ("0xabc".toList ++ ':' :: "12foo".toList) = none ↔
      startsWith0x ("0xabc".toList) = false ∨
        parseIntDec ((jsSplit ':' ("12foo".toList)).headI) = none :=
  (C5_parsePaymentHeader_amended ("0xabc".toList) ("12foo".toList) (by decide)).1

/-! ## Claim C9: settlement-header round trip -/

/-- C9: for every well-formed settlement header `h` — a `0x`-prefixed hex
`txHash`, a colon, and a (canonical) decimal unsigned chainId —
re-formatting the parse result as `txHash:chainId` yields `h` again. -/
theorem C9_header_roundtrip (h : Str) (hwf : wellFormedHeader h) :
    ∃ (tx : Str) (n : Nat), parsePaymentHeader h = some (tx, (n : Int)) ∧
      formatPaymentHeader tx n = h := by
  obtain ⟨hx, n, hne, hhex, rfl⟩ := hwf
  have hcol_tx : ':' ∉ ('0' :: 'x' :: hx) := by
    intro hm
    rcases List.mem_cons.mp hm with h1 | hm
    · exact absurd h1 (by decide)
    rcases List.mem_cons.mp hm with h1 | hm
    · exact absurd h1 (by decide)
    · exact absurd (hhex ':' hm) (by decide)
  have hcol_dd : ':' ∉ decDigits n := by
    intro hm
    exact absurd (decDigits_all_digits n ':' hm) (by decide)
  have hsplit : jsSplit ':' (('0' :: 'x' :: hx) ++ ':' :: decDigits n) =
      ('0' :: 'x' :: hx) :: jsSplit ':' (decDigits n) := jsSplit_append_sep _ hcol_tx
  rw [jsSplit_no_sep hcol_dd] at hsplit
  refine ⟨'0' :: 'x' :: hx, n, ?_, rfl⟩
  rw [parsePaymentHeader, hsplit]
  simp [parseIntDec_digits (decDigits_ne_nil n) (decDigits_all_digits n),
    digitsVal_decDigits, startsWith0x]

/-- C9 witness: the round trip at the concrete header `"0xab:7"`. -/
theorem C9_witness :
    ∃ (tx : Str) (n : Nat), parsePaymentHeader ("0xab:7".toList) = some (tx, (n : Int)) ∧
      formatPaymentHeader tx n = "0xab:7".toList :=
  C9_header_roundtrip ("0xab:7".toList) ⟨"ab".toList, 7, by decide, by decide, by decide⟩

/-! ## Structure of the middleware's verification path -/

theorem mem_setAdd_self (used : List Str) (tx : Str) : tx ∈ setAdd used tx := by
  rw [setAdd]
  by_cases h : tx ∈ used
  · rwa [if_pos h]
  · rw [if_neg h]
    exact List.mem_append_right used (List.mem_singleton.mpr rfl)

/-- The middleware on a priced request with a parseable settlement header:
replay check, rebuild, verify, then claim / hook / handler. -/
theorem paywall_eq_verified
    (opts : PaywallOptions) (env : MwEnv) (used : List Str) (r : Request)
    (price : EndpointPricing) (hdr : Str) (tx : Str) (cid : Int)
    (hpriced : lookupPricing opts.pricing (r.method ++ ' ' :: r.path) = some price)
    (hd : r.paymentHeader = some hdr)
    (hp : paywallParseHeader hdr = some (tx, cid)) :
    paywall opts env used r =
      if tx ∈ used then
        { response := .replayRejected 409, trace := [], usedAfter := used }
      else
        match middlewareRequirement opts env.nowSec (r.method ++ ' ' :: r.path) price with
        | none => { response := .raised, trace := [], usedAfter := used }
        | some vreq =>
          let verification := verifyPayment (env.nowSec * 1000) env.getReceipt tx vreq
          if !verification.valid then
            { response := .verificationFailed 402 verification.error,
              trace := [], usedAfter := used }
          else
            match (if opts.hasOnPayment then verification.fromAddr else none) with
            | some fromA =>
              if env.hookThrows then
                { response := .raised,
                  trace := [.insertUsed tx,
                            .invokeHook fromA (verification.amount.getD 0) tx
                              (r.method ++ ' ' :: r.path)],
                  usedAfter := setAdd used tx }
              else
                { response := .admitted verification,
                  trace := [.insertUsed tx,
                            .invokeHook fromA (verification.amount.getD 0) tx
                              (r.method ++ ' ' :: r.path),
                            .invokeNext],
                  usedAfter := setAdd used tx }
            | none =>
              { response := .admitted verification,
                trace := [.insertUsed tx, .invokeNext],
                usedAfter := setAdd used tx } := by
  simp only [paywall]
  rw [hpriced, hd]
  simp only []
  rw [hp]

/-- On the verified path the used set either stays or gains exactly `tx`;
an `admitted` response implies `tx` was claimed. -/
theorem paywall_admitted_mem
    (opts : PaywallOptions) (env : MwEnv) (used : List Str) (r : Request)
    (price : EndpointPricing) (hdr : Str) (tx : Str) (cid : Int)
    (v : PaymentVerification)
    (hpriced : lookupPricing opts.pricing (r.method ++ ' ' :: r.path) = some price)
    (hd : r.paymentHeader = some hdr)
    (hp : paywallParseHeader hdr = some (tx, cid))
    (hadm : (paywall opts env used r).response = .admitted v) :
    tx ∈ (paywall opts env used r).usedAfter := by
  rw [paywall_eq_verified opts env used r price hdr tx cid hpriced hd hp] at hadm ⊢
  by_cases hu : tx ∈ used
  · rw [if_pos hu] at hadm
    simp at hadm
  · rw [if_neg hu] at hadm ⊢
    rcases hreq : middlewareRequirement opts env.nowSec (r.method ++ ' ' :: r.path) price
      with _ | vreq
    · rw [hreq] at hadm
      simp at hadm
    · rw [hreq] at hadm
      simp only [] at hadm ⊢
      by_cases hv : (verifyPayment (env.nowSec * 1000) env.getReceipt tx vreq).valid
      · simp only [hv, Bool.not_true, ite_false, if_neg] at hadm ⊢
        rcases hfrom : (if opts.hasOnPayment
            then (verifyPayment (env.nowSec * 1000) env.getReceipt tx vreq).fromAddr
            else none) with _ | fromA
        · simp only [hfrom] at hadm ⊢
          exact mem_setAdd_self used tx
        · simp only [hfrom] at hadm ⊢
          by_cases ht : env.hookThrows
          · simp only [ht, ite_true] at hadm
            simp at hadm
          · simp only [ht, ite_false]
            exact mem_setAdd_self used tx
      · rw [Bool.not_eq_true] at hv
        simp only [hv, Bool.not_false, ite_true] at hadm
        simp at hadm

/-! ## Claim C1: the used-reference claim precedes hook and handler -/

/-- C1: on a priced request whose settlement header parses to `tx`,
whenever the paywall goes on to invoke the payment-observed hook or the
downstream handler, the very first recorded action is the insertion of
`tx` into the used-reference set — so neither the hook nor the handler
ever runs before `tx` is claimed, and `tx` is in the set afterwards. -/
theorem C1_claim_precedes_hook_and_handler
    (opts : PaywallOptions) (env : MwEnv) (used : List Str) (r : Request)
    (price : EndpointPricing) (hdr : Str) (tx : Str) (cid : Int)
    (hpriced : lookupPricing opts.pricing (r.method ++ ' ' :: r.path) = some price)
    (hd : r.paymentHeader = some hdr)
    (hp : paywallParseHeader hdr = some (tx, cid))
    (hrun : MwAction.invokeNext ∈ (paywall opts env used r).trace ∨
      ∃ f a e, MwAction.invokeHook f a tx e ∈ (paywall opts env used r).trace) :
    (paywall opts env used r).trace.head? = some (.insertUsed tx) ∧
      tx ∈ (paywall opts env used r).usedAfter := by
  rw [paywall_eq_verified opts env used r price hdr tx cid hpriced hd hp] at hrun ⊢
  by_cases hu : tx ∈ used
  · rw [if_pos hu] at hrun
    simp at hrun
  · rw [if_neg hu] at hrun ⊢
    rcases hreq : middlewareRequirement opts env.nowSec (r.method ++ ' ' :: r.path) price
      with _ | vreq
    · rw [hreq] at hrun
      simp at hrun
    · rw [hreq] at hrun
      simp only [] at hrun ⊢
      by_cases hv : (verifyPayment (env.nowSec * 1000) env.getReceipt tx vreq).valid
      · simp only [hv, Bool.not_true, ite_false] at hrun ⊢
        rcases hfrom : (if opts.hasOnPayment
            then (verifyPayment (env.nowSec * 1000) env.getReceipt tx vreq).fromAddr
            else none) with _ | fromA
        · simp only [hfrom] at hrun ⊢
          exact ⟨rfl, mem_setAdd_self used tx⟩
        · simp only [hfrom] at hrun ⊢
          by_cases ht : env.hookThrows
          · simp only [ht, ite_true] at hrun ⊢
            exact ⟨rfl, mem_setAdd_self used tx⟩
          · simp only [ht, ite_false] at hrun ⊢
            exact ⟨rfl, mem_setAdd_self used tx⟩
      · rw [Bool.not_eq_true] at hv
        simp only [hv, Bool.not_false, ite_true] at hrun
        simp at hrun

/-- C1 witness: the concrete admitted request — the trace opens with the
insert and `0xdeadbeef` ends up in the set. -/
theorem C1_witness :
    (paywall optsX envX [] reqPaid).trace.head? =
        some (.insertUsed ("0xdeadbeef".toList)) ∧
      "0xdeadbeef".toList ∈ (paywall optsX envX [] reqPaid).usedAfter :=
  C1_claim_precedes_hook_and_handler optsX envX [] reqPaid
    { amount := "0.01".toList, description := some ("Paid endpoint".toList) }
    ("0xdeadbeef:42431".toList) ("0xdeadbeef".toList) 42431
    (by rfl) (by rfl) (by rfl) (Or.inl (by decide))

/-! ## Claim C2: a second request with the same settlement reference -/

/-- C2, counterexample to the claim as stated.  The spec says a server
must accept a second distinct request bearing the same settlement
reference; the middleware instead rejects it: after the first admission of
`0xdeadbeef`, the identical retry gets `replayRejected 409`. -/
theorem C2_counterexample :
    (paywall optsX envX [] reqPaid).response = .admitted verX ∧
      (paywall optsX envX (paywall optsX envX [] reqPaid).usedAfter reqPaid).response =
        .replayRejected 409 := by
  exact ⟨rfl, rfl⟩

/-- C2 as amended: the middleware keys replay defense on the bare txHash,
so after one priced request carrying `tx` is admitted, every further
priced request bearing the same `tx` is rejected with 409 and its handler
is never invoked — same-reference batching is refused, not accepted. -/
theorem C2_same_reference_rejected
    (opts : PaywallOptions) (env1 env2 : MwEnv) (used : List Str) (r1 r2 : Request)
    (price1 price2 : EndpointPricing) (hdr1 hdr2 : Str) (tx : Str) (c1 c2 : Int)
    (v : PaymentVerification)
    (hpriced1 : lookupPricing opts.pricing (r1.method ++ ' ' :: r1.path) = some price1)
    (hd1 : r1.paymentHeader = some hdr1)
    (hp1 : paywallParseHeader hdr1 = some (tx, c1))
    (hadm : (paywall opts env1 used r1).response = .admitted v)
    (hpriced2 : lookupPricing opts.pricing (r2.method ++ ' ' :: r2.path) = some price2)
    (hd2 : r2.paymentHeader = some hdr2)
    (hp2 : paywallParseHeader hdr2 = some (tx, c2)) :
    (paywall opts env2 (paywall opts env1 used r1).usedAfter r2).response =
        .replayRejected 409 ∧
      MwAction.invokeNext ∉ (paywall opts env2 (paywall opts env1 used r1).usedAfter r2).trace := by
  have hmem : tx ∈ (paywall opts env1 used r1).usedAfter :=
    paywall_admitted_mem opts env1 used r1 price1 hdr1 tx c1 v hpriced1 hd1 hp1 hadm
  rw [paywall_eq_verified opts env2 ((paywall opts env1 used r1).usedAfter) r2
    price2 hdr2 tx c2 hpriced2 hd2 hp2, if_pos hmem]
  exact ⟨rfl, by simp⟩

/-- C2 witness: the amended behaviour at the concrete replayed request. -/
theorem C2_witness :
    (paywall optsX envX (paywall optsX envX [] reqPaid).usedAfter reqPaid).response =
        .replayRejected 409 ∧
      MwAction.invokeNext ∉
        (paywall optsX envX (paywall optsX envX [] reqPaid).usedAfter reqPaid).trace :=
  C2_same_reference_rejected optsX envX envX [] reqPaid reqPaid
    { amount := "0.01".toList, description := some ("Paid endpoint".toList) }
    { amount := "0.01".toList, description := some ("Paid endpoint".toList) }
    ("0xdeadbeef:42431".toList) ("0xdeadbeef:42431".toList)
    ("0xdeadbeef".toList) 42431 42431 verX
    (by rfl) (by rfl) (by rfl) (by rfl) (by rfl) (by rfl) (by rfl)

/-! ## Remaining structural equations of the middleware -/

theorem paywall_unpriced
    (opts : PaywallOptions) (env : MwEnv) (used : List Str) (r : Request)
    (h : lookupPricing opts.pricing (r.method ++ ' ' :: r.path) = none) :
    paywall opts env used r =
      { response := .passThrough, trace := [.invokeNext], usedAfter := used } := by
  simp only [paywall]
  rw [h]

theorem paywall_no_header
    (opts : PaywallOptions) (env : MwEnv) (used : List Str) (r : Request)
    (price : EndpointPricing)
    (hpriced : lookupPricing opts.pricing (r.method ++ ' ' :: r.path) = some price)
    (hd : r.paymentHeader = none) :
    paywall opts env used r =
      match buildPaymentRequirement opts.recipientAddress opts.token price.amount
          (r.method ++ ' ' :: r.path) env.nonce (env.nowSec + opts.expirySeconds)
          opts.chainId price.description with
      | none => { response := .raised, trace := [], usedAfter := used }
      | some requirement =>
        { response := .challenge
            { error := "Payment Required".toList
              payment := requirement
              instructions :=
                { header := "X-Payment".toList
                  format := "<txHash>:<chainId>".toList
                  steps :=
                    [ "Transfer ".toList ++ price.amount ++ ' ' :: symbolStr opts.token ++
                        " to ".toList ++ opts.recipientAddress,
                      "Include the tx hash in X-Payment header as txHash:chainId".toList,
                      "Retry the original request".toList ] } }
            402 [],
          trace := [], usedAfter := used } := by
  simp only [paywall]
  rw [hpriced, hd]

theorem paywall_bad_header
    (opts : PaywallOptions) (env : MwEnv) (used : List Str) (r : Request)
    (price : EndpointPricing) (hdr : Str)
    (hpriced : lookupPricing opts.pricing (r.method ++ ' ' :: r.path) = some price)
    (hd : r.paymentHeader = some hdr)
    (hp : paywallParseHeader hdr = none) :
    paywall opts env used r =
      { response := .invalidHeader 400, trace := [], usedAfter := used } := by
  simp only [paywall]
  rw [hpriced, hd]
  simp only []
  rw [hp]

/-! ## Claim C6: a throwing payment-observed hook -/

/-- C6, counterexample to the claim as stated.  With an identical admitted
request, turning the hook into a throwing one changes the outcome: the
exception escapes the middleware and the downstream handler is no longer
invoked (there is no try/catch around `await onPayment(...)`). -/
theorem C6_counterexample :
    MwAction.invokeNext ∈ (paywall optsX envX [] reqPaid).trace ∧
      (paywall optsX envXT [] reqPaid).response = .raised ∧
      MwAction.invokeNext ∉ (paywall optsX envXT [] reqPaid).trace := by
  exact ⟨by decide, rfl, by decide⟩

/-- C6 as amended: when verification succeeds and the configured hook
throws, the exception propagates out of the middleware — the request is
not admitted, the downstream handler is never invoked — while the txHash
stays claimed in the used-reference set. -/
theorem C6_hook_exception_propagates
    (opts : PaywallOptions) (env : MwEnv) (used : List Str) (r : Request)
    (price : EndpointPricing) (hdr : Str) (tx : Str) (cid : Int)
    (vreq : PaymentRequirement) (fromA : Str)
    (hpriced : lookupPricing opts.pricing (r.method ++ ' ' :: r.path) = some price)
    (hd : r.paymentHeader = some hdr)
    (hp : paywallParseHeader hdr = some (tx, cid))
    (hnu : tx ∉ used)
    (hreq : middlewareRequirement opts env.nowSec (r.method ++ ' ' :: r.path) price = some vreq)
    (hvalid : (verifyPayment (env.nowSec * 1000) env.getReceipt tx vreq).valid = true)
    (hfrom : (if opts.hasOnPayment
        then (verifyPayment (env.nowSec * 1000) env.getReceipt tx vreq).fromAddr
        else none) = some fromA)
    (hthrow : env.hookThrows = true) :
    (paywall opts env used r).response = .raised ∧
      MwAction.invokeNext ∉ (paywall opts env used r).trace ∧
      tx ∈ (paywall opts env used r).usedAfter := by
  rw [paywall_eq_verified opts env used r price hdr tx cid hpriced hd hp, if_neg hnu, hreq]
  simp only [hvalid, Bool.not_true, hfrom, hthrow, ite_true, ite_false]
  refine ⟨rfl, by simp, mem_setAdd_self used tx⟩

/-- C6 witness: the amended behaviour at the concrete throwing-hook run. -/
theorem C6_witness :
    (paywall optsX envXT [] reqPaid).response = .raised ∧
      MwAction.invokeNext ∉ (paywall optsX envXT [] reqPaid).trace ∧
      "0xdeadbeef".toList ∈ (paywall optsX envXT [] reqPaid).usedAfter :=
  C6_hook_exception_propagates optsX envXT [] reqPaid
    { amount := "0.01".toList, description := some ("Paid endpoint".toList) }
    ("0xdeadbeef:42431".toList) ("0xdeadbeef".toList) 42431 vreqX ("0xSender".toList)
    (by rfl) (by rfl) (by rfl) (by decide) (by rfl) (by rfl) (by rfl) (by rfl)

/-! ## Claim C8: flat-value headers on the 402 challenge -/

/-- C8: the concrete unpaid priced request does get a 402 challenge, but
the middleware attaches no custom response headers to it — in particular
none of `X-Payment-Amount`, `X-Payment-Token`, `X-Payment-Recipient`
(`c.json(body, 402)` is called without a headers argument). -/
theorem C8_challenge_has_no_flat_headers :
    challengeHeaders ((paywall optsX envX [] reqNoHdr).response) = some [] := by
  exact rfl

/-! ## Claim C10: `Expired` and `MemoMismatch` unreachable from the middleware -/

theorem middlewareRequirement_shape
    (opts : PaywallOptions) (nowSec : Nat) (key : Str) (price : EndpointPricing)
    (vreq : PaymentRequirement)
    (h : middlewareRequirement opts nowSec key price = some vreq) :
    vreq.memo = ZERO_MEMO ∧ vreq.expiry = nowSec + opts.expirySeconds := by
  rw [middlewareRequirement] at h
  rcases Option.map_eq_some'.mp h with ⟨scaled, _, heq⟩
  rw [← heq]
  exact ⟨rfl, rfl⟩

/-- With an all-zero required memo the shared verification tail can fail
only as `caughtError` or `insufficient`, and succeeds whenever the
transferred value covers the required amount. -/
theorem finishVerification_zero_memo
    (req : PaymentRequirement) (txHash : Str) (bn : Nat) (s rc : Str) (v : Nat)
    (om : Option HashV) (hm : req.memo = ZERO_MEMO) :
    ((finishVerification req txHash bn s rc v om).error ≠ some .expired ∧
      (finishVerification req txHash bn s rc v om).error ≠ some .memoMismatch) ∧
    (∀ need, jsBigInt req.amountRequired = some need → need ≤ (v : Int) →
      (finishVerification req txHash bn s rc v om).valid = true) := by
  have hb : hasMemoRequirement ZERO_MEMO = false := by decide
  rw [finishVerification.eq_def, hm, hb]
  rcases hbig : jsBigInt req.amountRequired with _ | need
  · refine ⟨⟨by simp, by simp⟩, ?_⟩
    intro need h1 _
    exact absurd h1 (by simp)
  · simp only []
    constructor
    · by_cases hlt : (v : Int) < need
      · rw [if_pos hlt]
        exact ⟨by simp, by simp⟩
      · rw [if_neg hlt]
        rcases om with _ | m
        · simp
        · simp
    · intro need2 h1 hle
      have : need = need2 := by simpa using h1
      subst this
      rw [if_neg (by omega)]
      rcases om with _ | m
      · simp
      · simp

/-- The verifier, run on any requirement the middleware rebuilds, cannot
reach `Expired` or `MemoMismatch`, and admits any selected log of
sufficient value whatever memo it carries. -/
theorem verifyPayment_mw_shape
    (opts : PaywallOptions) (nowSec : Nat) (g : Str → Option Receipt) (tx : Str)
    (vreq : PaymentRequirement)
    (hm : vreq.memo = ZERO_MEMO) (hexp : vreq.expiry = nowSec + opts.expirySeconds) :
    ((verifyPayment (nowSec * 1000) g tx vreq).error ≠ some .expired ∧
      (verifyPayment (nowSec * 1000) g tx vreq).error ≠ some .memoMismatch) ∧
    (∀ receipt log s rc v m need,
      g tx = some receipt → receipt.statusSuccess = true →
      selectPaymentLog vreq receipt.logs = some log →
      log.event = .transferWithMemo s rc v m →
      jsBigInt vreq.amountRequired = some need → need ≤ (v : Int) →
      (verifyPayment (nowSec * 1000) g tx vreq).valid = true) := by
  have hnot : ¬ (vreq.expiry * 1000 < nowSec * 1000) := by
    rw [hexp]
    have : nowSec * 1000 ≤ (nowSec + opts.expirySeconds) * 1000 :=
      Nat.mul_le_mul_right 1000 (Nat.le_add_right _ _)
    omega
  refine ⟨?_, ?_⟩
  · rw [verifyPayment, if_neg hnot]
    rcases hg : g tx with _ | receipt
    · exact ⟨by simp, by simp⟩
    · simp only []
      by_cases hst : receipt.statusSuccess
      · rw [hst, if_neg (by decide : ¬(((!true : Bool)) = true))]
        rcases hsel : selectPaymentLog vreq receipt.logs with _ | log
        · exact ⟨by simp, by simp⟩
        · simp only []
          rcases hev : log.event with ⟨s0, r0, v0⟩ | ⟨s0, r0, v0, m0⟩ | _
          · simp only []
            exact (finishVerification_zero_memo vreq tx receipt.blockNumber s0 r0 v0 none hm).1
          · simp only []
            exact (finishVerification_zero_memo vreq tx receipt.blockNumber s0 r0 v0 (some m0) hm).1
          · exact ⟨by simp, by simp⟩
      · rw [Bool.not_eq_true] at hst
        rw [hst, if_pos (by decide : ((!false : Bool)) = true)]
        exact ⟨by simp, by simp⟩
  · intro receipt log s rc v m need hg hst hsel hev hbig hle
    rw [verifyPayment, if_neg hnot, hg]
    simp only []
    rw [hst, if_neg (by decide : ¬(((!true : Bool)) = true))]
    rw [hsel]
    simp only []
    rw [hev]
    simp only []
    exact (finishVerification_zero_memo vreq tx receipt.blockNumber s rc v (some m) hm).2 need hbig hle

/-- C10: the middleware rebuilds the requirement it verifies with a fresh
`expiry = now + expirySeconds` and an all-zero memo, so the verifier's
`Expired` and `MemoMismatch` branches are unreachable from the middleware
(every 402 verification failure carries another detail), and a matching
transfer of sufficient value is admitted by the verifier whatever memo the
transfer carries and however long ago the original challenge was issued. -/
theorem C10_expired_memoMismatch_unreachable
    (opts : PaywallOptions) (env : MwEnv) (used : List Str) (r : Request) :
    (∀ d, (paywall opts env used r).response = .verificationFailed 402 d →
        d ≠ some .expired ∧ d ≠ some .memoMismatch) ∧
    (∀ nowSec key price vreq g tx receipt log s rc v m need,
      middlewareRequirement opts nowSec key price = some vreq →
      g tx = some receipt → receipt.statusSuccess = true →
      selectPaymentLog vreq receipt.logs = some log →
      log.event = .transferWithMemo s rc v m →
      jsBigInt vreq.amountRequired = some need → need ≤ (v : Int) →
      (verifyPayment (nowSec * 1000) g tx vreq).valid = true) := by
  constructor
  · intro d hresp
    rcases hl : lookupPricing opts.pricing (r.method ++ ' ' :: r.path) with _ | price
    · rw [paywall_unpriced opts env used r hl] at hresp
      simp at hresp
    · rcases hh : r.paymentHeader with _ | hdr
      · rw [paywall_no_header opts env used r price hl hh] at hresp
        rcases hb : buildPaymentRequirement opts.recipientAddress opts.token price.amount
            (r.method ++ ' ' :: r.path) env.nonce (env.nowSec + opts.expirySeconds)
            opts.chainId price.description with _ | reqq
        · rw [hb] at hresp
          simp at hresp
        · rw [hb] at hresp
          simp at hresp
      · rcases hp : paywallParseHeader hdr with _ | ⟨tx, cid⟩
        · rw [paywall_bad_header opts env used r price hdr hl hh hp] at hresp
          simp at hresp
        · rw [paywall_eq_verified opts env used r price hdr tx cid hl hh hp] at hresp
          by_cases hu : tx ∈ used
          · rw [if_pos hu] at hresp
            simp at hresp
          · rw [if_neg hu] at hresp
            rcases hreq : middlewareRequirement opts env.nowSec (r.method ++ ' ' :: r.path) price
              with _ | vreq
            · rw [hreq] at hresp
              simp at hresp
            · rw [hreq] at hresp
              simp only [] at hresp
              by_cases hv : (verifyPayment (env.nowSec * 1000) env.getReceipt tx vreq).valid
              · simp only [hv, Bool.not_true, ite_false] at hresp
                rcases hfrom : (if opts.hasOnPayment
                    then (verifyPayment (env.nowSec * 1000) env.getReceipt tx vreq).fromAddr
                    else none) with _ | fromA
                · simp only [hfrom] at hresp
                  simp at hresp
                · simp only [hfrom] at hresp
                  by_cases ht : env.hookThrows
                  · simp only [ht, ite_true] at hresp
                    simp at hresp
                  · simp only [ht, ite_false] at hresp
                    simp at hresp
              · rw [Bool.not_eq_true] at hv
                simp only [hv, Bool.not_false, ite_true] at hresp
                simp only [MwResponse.verificationFailed.injEq] at hresp
                obtain ⟨hm, hexp⟩ := middlewareRequirement_shape opts env.nowSec
                  (r.method ++ ' ' :: r.path) price vreq hreq
                have := (verifyPayment_mw_shape opts env.nowSec env.getReceipt tx vreq hm hexp).1
                rw [← hresp.2]
                exact this
  · intro nowSec key price vreq g tx receipt log s rc v m need hreq hg hst hsel hev hbig hle
    obtain ⟨hm, hexp⟩ := middlewareRequirement_shape opts nowSec key price vreq hreq
    exact (verifyPayment_mw_shape opts nowSec g tx vreq hm hexp).2
      receipt log s rc v m need hg hst hsel hev hbig hle

/-- C10 witness: in the underpaying concrete run the middleware's 402
failure detail is `insufficient` — and the theorem instantiates to show it
is neither `Expired` nor `MemoMismatch`. -/
theorem C10_witness :
    (some VerifyError.insufficient ≠ some VerifyError.expired) ∧
      (some VerifyError.insufficient ≠ some VerifyError.memoMismatch) :=
  (C10_expired_memoMismatch_unreachable optsX envLow [] reqPaid).1
    (some .insufficient) (by rfl)

/-! ## Claim C3: log selection and tie-breaks in `verifyPayment` -/

/-- A successful `find?` on a list sorted by ascending `logIndex` returns a
match of minimal log index. -/
theorem find?_earliest {p : Log → Bool} {l : List Log} {a : Log}
    (hsorted : l.Pairwise (fun x y => x.logIndex < y.logIndex))
    (h : l.find? p = some a) :
    p a = true ∧ a ∈ l ∧ ∀ b ∈ l, p b = true → a.logIndex ≤ b.logIndex := by
  obtain ⟨l1, l2, hsplit, hpa, hl1⟩ := find?_split h
  subst hsplit
  refine ⟨hpa, by simp, ?_⟩
  intro b hb hpb
  rcases List.mem_append.mp hb with hb1 | hb2
  · exact absurd hpb (by rw [hl1 b hb1]; simp)
  · rcases List.mem_cons.mp hb2 with hbe | hb3
    · subst hbe
      exact le_refl _
    · have := (List.pairwise_append.mp hsorted).2.1
      have hlt : a.logIndex < b.logIndex := (List.pairwise_cons.mp this).1 b hb3
      exact le_of_lt hlt

/-- C3: among the receipt's logs (listed in ascending log-index order, as
receipts deliver them), `verifyPayment`'s selection — `selectPaymentLog` —
prefers `TransferWithMemo` candidates (matching token and recipient) over
every plain `Transfer` candidate, picking the earliest-index one; only
when no `TransferWithMemo` candidate exists does it fall back to the
earliest-index matching plain `Transfer`. -/
theorem C3_selection_prefers_memo_then_earliest
    (req : PaymentRequirement) (receipt : Receipt)
    (hsorted : receipt.logs.Pairwise (fun x y => x.logIndex < y.logIndex)) :
    ((∃ l ∈ receipt.logs, isMemoCandidate req l = true) →
      ∃ sel, selectPaymentLog req receipt.logs = some sel ∧
        isMemoCandidate req sel = true ∧
        ∀ l ∈ receipt.logs, isMemoCandidate req l = true → sel.logIndex ≤ l.logIndex) ∧
    ((∀ l ∈ receipt.logs, isMemoCandidate req l = false) →
      (∃ l ∈ receipt.logs, isTransferCandidate req l = true) →
      ∃ sel, selectPaymentLog req receipt.logs = some sel ∧
        isTransferCandidate req sel = true ∧
        ∀ l ∈ receipt.logs, isTransferCandidate req l = true → sel.logIndex ≤ l.logIndex) := by
  constructor
  · intro hex
    rcases hfind : receipt.logs.find? (isMemoCandidate req) with _ | sel
    · obtain ⟨l, hl, hpl⟩ := hex
      have := List.find?_eq_none.mp hfind l hl
      rw [hpl] at this
      simp at this
    · obtain ⟨hpa, hmem, hmin⟩ := find?_earliest hsorted hfind
      exact ⟨sel, by rw [selectPaymentLog, hfind], hpa, hmin⟩
  · intro hnone hex
    have hfind : receipt.logs.find? (isMemoCandidate req) = none := by
      rw [List.find?_eq_none]
      intro l hl
      rw [hnone l hl]
      simp
    rcases hfind2 : receipt.logs.find? (isTransferCandidate req) with _ | sel
    · obtain ⟨l, hl, hpl⟩ := hex
      have := List.find?_eq_none.mp hfind2 l hl
      rw [hpl] at this
      simp at this
    · obtain ⟨hpa, hmem, hmin⟩ := find?_earliest hsorted hfind2
      exact ⟨sel, by rw [selectPaymentLog, hfind, hfind2], hpa, hmin⟩

/-- C3 witness: on the concrete receipt holding a matching plain transfer
at index 0 and a matching memo transfer at index 1, the memo transfer is
selected. -/
theorem C3_witness :
    ∃ sel, selectPaymentLog vreqX rcptM.logs = some sel ∧
      isMemoCandidate vreqX sel = true ∧
      ∀ l ∈ rcptM.logs, isMemoCandidate vreqX l = true → sel.logIndex ≤ l.logIndex :=
  (C3_selection_prefers_memo_then_earliest vreqX rcptM (by decide)).1
    ⟨{ address := "0x20c0000000000000000000000000000000000000".toList
       logIndex := 1
       event := .transferWithMemo ("0xB".toList)
         ("0x00dfee79b7fd7aef0312e06da8e1d60a5957f9cf".toList) 10000
         (.hexLit ("0xdddd".toList)) }, by decide, by decide⟩

/-! ## Claim C4: amount validation in `buildPaymentRequirement` -/

theorem digitsVal_replicate_zero (k : Nat) : digitsVal (List.replicate k '0') = 0 := by
  induction k with
  | zero => rfl
  | succ n ih =>
    rw [List.replicate_succ]
    simp only [digitsVal, List.foldl_cons]
    exact ih

theorem digit_ne_dot {c : Char} (h : c.isDigit = true) : c ≠ '.' := by
  intro hc
  subst hc
  exact absurd h (by decide)

theorem dot_not_mem_digits {l : Str} (h : l.all Char.isDigit = true) : '.' ∉ l := by
  intro hm
  exact absurd (List.all_eq_true.mp h '.' hm) (by decide)

theorem jsStartsWithMinus_of_digits {l : Str} (h : l.all Char.isDigit = true) :
    jsStartsWithMinus l = false := by
  rcases l with _ | ⟨c, rest⟩
  · rfl
  · have hc : c.isDigit = true := List.all_eq_true.mp h c (List.mem_cons_self c rest)
    have hcm : c ≠ '-' := by
      intro hcc
      subst hcc
      exact absurd hc (by decide)
    rw [jsStartsWithMinus]
    simp [hcm]

theorem stripLeadingMinus_of_not_minus {l : Str} (h : jsStartsWithMinus l = false) :
    stripLeadingMinus l = l := by
  rw [stripLeadingMinus, h]
  simp

/-- The trailing-zero trim decomposes the fraction into the trimmed part
followed by zeros. -/
theorem trimTrailingZeros_decomp (f : Str) :
    ∃ k, f = trimTrailingZeros f ++ List.replicate k '0' := by
  refine ⟨(f.reverse.takeWhile (· = '0')).length, ?_⟩
  have hsplit : f.reverse.takeWhile (· = '0') ++ f.reverse.dropWhile (· = '0') = f.reverse :=
    List.takeWhile_append_dropWhile _ _
  have hrev : (f.reverse.takeWhile (· = '0')).reverse =
      List.replicate (f.reverse.takeWhile (· = '0')).length '0' := by
    have htake : f.reverse.takeWhile (· = '0') =
        List.replicate (f.reverse.takeWhile (· = '0')).length '0' := by
      apply List.eq_replicate_of_mem
      intro b hb
      have hpb := List.mem_takeWhile_imp hb
      simpa using hpb
    conv_lhs => rw [htake]
    rw [List.reverse_replicate]
  calc f = f.reverse.reverse := (List.reverse_reverse f).symm
    _ = (f.reverse.takeWhile (· = '0') ++ f.reverse.dropWhile (· = '0')).reverse := by
        rw [hsplit]
    _ = (f.reverse.dropWhile (· = '0')).reverse ++ (f.reverse.takeWhile (· = '0')).reverse := by
        rw [List.reverse_append]
    _ = trimTrailingZeros f ++ List.replicate (f.reverse.takeWhile (· = '0')).length '0' := by
        rw [hrev]
        rfl

theorem digitsVal_padEnd (f : Str) (d : Nat) :
    digitsVal (padEndZeros f d) = digitsVal f * 10 ^ (d - f.length) := by
  rw [padEndZeros, digitsVal_append, digitsVal_replicate_zero, List.length_replicate]
  omega

/-- The regex guard accepts `digits.digits`. -/
theorem isDecimalNumberStr_dotted {ip fp : Str}
    (hi : ip.all Char.isDigit = true) (hf : fp.all Char.isDigit = true) :
    isDecimalNumberStr (ip ++ '.' :: fp) = true := by
  rw [isDecimalNumberStr]
  have hmin : jsStartsWithMinus (ip ++ '.' :: fp) = false := by
    rcases ip with _ | ⟨c, rest⟩
    · rfl
    · have hc : c.isDigit = true := by
        simp only [List.all_cons, Bool.and_eq_true] at hi
        exact hi.1
      have hcm : c ≠ '-' := by
        intro hcc
        subst hcc
        exact absurd hc (by decide)
      rw [List.cons_append, jsStartsWithMinus]
      simp [hcm]
  rw [stripLeadingMinus_of_not_minus hmin,
    jsSplit_append_sep fp (dot_not_mem_digits hi), jsSplit_no_sep (dot_not_mem_digits hf)]
  simp [hi, hf]

/-- The regex guard accepts a pure digit string. -/
theorem isDecimalNumberStr_int {ip : Str} (hi : ip.all Char.isDigit = true) :
    isDecimalNumberStr ip = true := by
  rw [isDecimalNumberStr,
    stripLeadingMinus_of_not_minus (jsStartsWithMinus_of_digits hi),
    jsSplit_no_sep (dot_not_mem_digits hi)]
  simpa using hi

/-- `parseUnits` never throws on a regex-valid amount. -/
theorem parseUnits_some_of_valid {s : Str} {d : Nat} (h : isDecimalNumberStr s = true) :
    ∃ v, parseUnits s d = some v := by
  rw [parseUnits, h]
  exact ⟨_, rfl⟩

/-- Exact scaling: `parseUnits "ip.fp" d` with at most `d` fractional
digits is the integer `ip·10^d + fp·10^(d−|fp|)` — no rounding, no
rejection. -/
theorem parseUnits_pad {ip fp : Str} {d : Nat}
    (hi : ip.all Char.isDigit = true) (hf : fp.all Char.isDigit = true)
    (hlen : fp.length ≤ d) (hd : d ≠ 0) :
    parseUnits (ip ++ '.' :: fp) d =
      some ((digitsVal ip * 10 ^ d + digitsVal fp * 10 ^ (d - fp.length) : Nat) : Int) := by
  have hreg := isDecimalNumberStr_dotted hi hf
  rw [parseUnits, hreg]
  rw [if_neg (by decide : ¬((!(true : Bool)) = true))]
  have hsplit : jsSplit '.' (ip ++ '.' :: fp) = [ip, fp] := by
    rw [jsSplit_append_sep fp (dot_not_mem_digits hi), jsSplit_no_sep (dot_not_mem_digits hf)]
  simp only [hsplit, List.getD, List.get?, Option.getD]
  obtain ⟨k, hk⟩ := trimTrailingZeros_decomp fp
  have htlen : (trimTrailingZeros fp).length + k = fp.length := by
    conv_rhs => rw [hk]
    simp [List.length_append]
  have htval : digitsVal fp = digitsVal (trimTrailingZeros fp) * 10 ^ k := by
    conv_lhs => rw [hk]
    rw [digitsVal_append, digitsVal_replicate_zero, List.length_replicate]
    omega
  rw [jsStartsWithMinus_of_digits hi, stripLeadingMinus_of_not_minus
    (jsStartsWithMinus_of_digits hi)]
  rw [if_neg hd]
  rw [if_neg (by omega : ¬ (d < (trimTrailingZeros fp).length))]
  simp only []
  rw [digitsVal_append, digitsVal_padEnd]
  have hplen : (padEndZeros (trimTrailingZeros fp) d).length = d := by
    rw [padEndZeros, List.length_append, List.length_replicate]
    omega
  rw [hplen]
  have harith : (digitsVal ip * 10 ^ d +
      digitsVal (trimTrailingZeros fp) * 10 ^ (d - (trimTrailingZeros fp).length)) =
      digitsVal ip * 10 ^ d + digitsVal fp * 10 ^ (d - fp.length) := by
    rw [htval]
    have hexp : k + (d - fp.length) = d - (trimTrailingZeros fp).length := by omega
    rw [mul_assoc, ← pow_add, hexp]
  rw [harith]
  simp

/-- Exact scaling for a dotless digit amount. -/
theorem parseUnits_int {ip : Str} {d : Nat}
    (hi : ip.all Char.isDigit = true) (hd : d ≠ 0) :
    parseUnits ip d = some ((digitsVal ip * 10 ^ d : Nat) : Int) := by
  have hreg := isDecimalNumberStr_int hi
  rw [parseUnits, hreg]
  rw [if_neg (by decide : ¬((!(true : Bool)) = true))]
  have hsplit : jsSplit '.' ip = [ip] := jsSplit_no_sep (dot_not_mem_digits hi)
  simp only [hsplit, List.getD, List.get?, Option.getD]
  rw [jsStartsWithMinus_of_digits hi, stripLeadingMinus_of_not_minus
    (jsStartsWithMinus_of_digits hi)]
  have htrim : trimTrailingZeros ['0'] = [] := by decide
  rw [htrim, if_neg hd]
  rw [if_neg (by simp : ¬ (d < ([] : Str).length))]
  simp only []
  rw [digitsVal_append, digitsVal_padEnd]
  have hplen : (padEndZeros ([] : Str) d).length = d := by
    rw [padEndZeros]
    simp
  rw [hplen]
  simp [digitsVal]

theorem intToDecStr_ofNat (n : Nat) : intToDecStr ((n : Nat) : Int) = decDigits n := by
  rw [intToDecStr, if_neg (by omega : ¬ ((n : Int) < 0))]
  simp

/-- C4, counterexample to the claim as stated.  `buildPaymentRequirement`
does not fail with `InvalidAmount` on a non-positive amount: for the
amount `"0"` it returns a populated requirement with `amountRequired`
`"0"`; and for `"0.0000001"` — more fractional digits than the token's 6
decimals — it silently rounds to `"0"` instead of failing. -/
theorem C4_counterexample :
    buildPaymentRequirement ("0xR".toList) .pathUSD ("0".toList) ("POST /x".toList)
        ("n1".toList) 1700000000 42431 none =
      some { recipientAddress := "0xR".toList
             tokenAddress := "0x20c0000000000000000000000000000000000000".toList
             tokenSymbol := "pathUSD".toList
             amountRequired := "0".toList
             amountHuman := "0".toList
             endpoint := "POST /x".toList
             nonce := "n1".toList
             expiry := 1700000000
             chainId := 42431
             memo := .kecMemo ("POST /x".toList) (.kecStr ("n1".toList)) ("n1".toList) 1700000000
             description := none } ∧
    buildPaymentRequirement ("0xR".toList) .pathUSD ("0.0000001".toList) ("POST /x".toList)
        ("n1".toList) 1700000000 42431 none =
      some { recipientAddress := "0xR".toList
             tokenAddress := "0x20c0000000000000000000000000000000000000".toList
             tokenSymbol := "pathUSD".toList
             amountRequired := "0".toList
             amountHuman := "0.0000001".toList
             endpoint := "POST /x".toList
             nonce := "n1".toList
             expiry := 1700000000
             chainId := 42431
             memo := .kecMemo ("POST /x".toList) (.kecStr ("n1".toList)) ("n1".toList) 1700000000
             description := none } := by
  exact ⟨rfl, rfl⟩

/-- C4 as amended: `buildPaymentRequirement` performs no amount
validation of its own and there is no `InvalidAmount` failure: every
amount matching viem's decimal format — including zero, negative and
over-precise ones — yields a populated requirement (excess fractional
digits are rounded by `parseUnits`, not rejected); and whenever the
amount's fractional digits fit within the token's decimals, the
`amountRequired` field is the amount scaled to smallest units by exact
integer arithmetic. -/
theorem C4_buildPaymentRequirement_amended
    (recipient : Str) (token : StablecoinSymbol) (endpoint nonce : Str)
    (expiry chainId : Nat) (descr : Option Str) :
    (∀ amount, isDecimalNumberStr amount = true →
      ∃ req, buildPaymentRequirement recipient token amount endpoint nonce expiry
        chainId descr = some req) ∧
    (∀ ip fp, ip.all Char.isDigit = true → fp.all Char.isDigit = true →
      fp.length ≤ (STABLECOINS token).decimals →
      ∃ req, buildPaymentRequirement recipient token (ip ++ '.' :: fp) endpoint nonce expiry
          chainId descr = some req ∧
        req.amountRequired = decDigits (digitsVal ip * 10 ^ (STABLECOINS token).decimals +
          digitsVal fp * 10 ^ ((STABLECOINS token).decimals - fp.length))) := by
  have hd6 : (STABLECOINS token).decimals = 6 := by cases token <;> rfl
  constructor
  · intro amount hreg
    obtain ⟨v, hv⟩ := parseUnits_some_of_valid (d := (STABLECOINS token).decimals) hreg
    rw [buildPaymentRequirement]
    rw [hv]
    exact ⟨_, rfl⟩
  · intro ip fp hi hf hlen
    have hpu := parseUnits_pad hi hf hlen (by omega)
    rw [buildPaymentRequirement]
    rw [hpu]
    refine ⟨_, rfl, ?_⟩
    simp only []
    exact intToDecStr_ofNat _

/-- C4 witness: the amended exact-scaling at the test vector `"0.005"`
(→ `5000` smallest units of the 6-decimal token). -/
theorem C4_witness :
    ∃ req, buildPaymentRequirement ("0xR".toList) .pathUSD
        ("0".toList ++ '.' :: "005".toList) ("POST /x".toList) ("n1".toList)
        1700000000 42431 none = some req ∧
      req.amountRequired = decDigits (digitsVal ("0".toList) * 10 ^ (STABLECOINS .pathUSD).decimals +
        digitsVal ("005".toList) * 10 ^ ((STABLECOINS .pathUSD).decimals - ("005".toList).length)) :=
  (C4_buildPaymentRequirement_amended ("0xR".toList) .pathUSD ("POST /x".toList)
      ("n1".toList) 1700000000 42431 none).2
    ("0".toList) ("005".toList) (by decide) (by decide) (by decide)

/-! ## Claim C7: the client's backoff schedule and non-retryable errors -/

/-- Unrolling `n` retryable failures: the outcome is that of the loop
resumed at attempt `attempt + n`, after one backoff sleep per failed
attempt, each of exactly `retryDelay` of its attempt number. -/
theorem fetchLoopAux_unroll (env : FetchEnv) (deadline maxRetries : Nat) (n : Nat) :
    ∀ remaining attempt,
    n < remaining →
    (∀ k, attempt ≤ k → k < attempt + n → env.nowAt k ≤ deadline) →
    (∀ k, attempt ≤ k → k < attempt + n →
      ∃ mk, env.attemptResult k = .thrown mk ∧ isNonRetryableMsg mk = false) →
    attempt + n ≤ maxRetries →
    (fetchLoopAux env deadline maxRetries remaining attempt).1 =
        (fetchLoopAux env deadline maxRetries (remaining - n) (attempt + n)).1 ∧
      sleepsOf (fetchLoopAux env deadline maxRetries remaining attempt).2 =
        (List.range n).map (fun i => retryDelay (attempt + i)) ++
          sleepsOf (fetchLoopAux env deadline maxRetries (remaining - n) (attempt + n)).2 := by
  induction n with
  | zero =>
    intro remaining attempt _ _ _ _
    simp
  | succ n ih =>
    intro remaining attempt hlt htime herr hmax
    match remaining, hlt with
    | r + 1, hlt =>
      rw [fetchLoopAux]
      rw [if_neg (by
        have := htime attempt le_rfl (by omega)
        omega : ¬ (deadline < env.nowAt attempt))]
      obtain ⟨mk, hmk, hnr⟩ := herr attempt le_rfl (by omega)
      rw [hmk]
      simp only []
      have hcond : (isNonRetryableMsg mk || decide (maxRetries ≤ attempt)) = false := by
        rw [hnr]
        simp
        omega
      rw [if_neg (by rw [hcond]; simp : ¬ ((isNonRetryableMsg mk ||
        decide (maxRetries ≤ attempt)) = true))]
      obtain ⟨ih1, ih2⟩ := ih r (attempt + 1) (by omega)
        (fun k hk1 hk2 => htime k (by omega) (by omega))
        (fun k hk1 hk2 => herr k (by omega) (by omega)) (by omega)
      have hrem : r - n = r + 1 - (n + 1) := by omega
      have hatt : attempt + 1 + n = attempt + (n + 1) := by omega
      constructor
      · simp only []
        rw [ih1, hrem, hatt]
      · simp only [sleepsOf, List.filterMap_cons]
        simp only [sleepsOf] at ih2
        rw [ih2, hrem, hatt]
        have hr : (List.range (n + 1)).map (fun i => retryDelay (attempt + i)) =
            retryDelay attempt :: (List.range n).map (fun i => retryDelay (attempt + 1 + i)) := by
          rw [List.range_succ_eq_map, List.map_cons, List.map_map]
          refine congrArg₂ List.cons (by simp) (List.map_congr_left ?_)
          intro a _
          simp only [Function.comp_apply]
          congr 1
          omega
        rw [hr]
        simp

/-- C7: in `AgentGateClient.fetch`, when the first `n` attempts fail with
retryable errors inside the deadline, (a) a retryable error at attempt `n`
(0-indexed, not the last attempt) makes the engine sleep exactly
`min(1000·2^k, 10000)` ms after each failed attempt `k ≤ n` before the
next one, and (b) an error classified `InsufficientBalance` or
`InvalidChallenge` at attempt `n` is never retried: it is raised
immediately — no further sleep — regardless of remaining attempts. -/
theorem C7_backoff_and_nonretryable
    (maxRetries deadline : Nat) (env : FetchEnv) (n : Nat)
    (htime : ∀ k, k ≤ n → env.nowAt k ≤ deadline)
    (herr : ∀ k, k < n →
      ∃ mk, env.attemptResult k = .thrown mk ∧ isNonRetryableMsg mk = false)
    (hn : n ≤ maxRetries) :
    (∀ m, env.attemptResult n = .thrown m → isNonRetryableMsg m = false →
      n < maxRetries →
      (sleepsOf (sdkFetch maxRetries deadline env).2).take (n + 1) =
        (List.range (n + 1)).map retryDelay) ∧
    (∀ m, env.attemptResult n = .thrown m → isNonRetryableMsg m = true →
      (sdkFetch maxRetries deadline env).1 = .raised m ∧
        sleepsOf (sdkFetch maxRetries deadline env).2 = (List.range n).map retryDelay) := by
  constructor
  · intro m hm hret hnlt
    have hun := fetchLoopAux_unroll env deadline maxRetries (n + 1) (maxRetries + 1) 0
      (by omega)
      (fun k hk1 hk2 => htime k (by omega))
      (fun k hk1 hk2 => by
        rcases Nat.lt_or_ge k n with hkn | hkn
        · exact herr k hkn
        · have : k = n := by omega
          subst this
          exact ⟨m, hm, hret⟩)
      (by omega)
    rw [sdkFetch, hun.2]
    have hA : (List.range (n + 1)).map (fun i => retryDelay (0 + i)) =
        (List.range (n + 1)).map retryDelay := by
      apply List.map_congr_left
      intro i _
      simp
    have htake : ∀ (l₁ l₂ : List Nat) (k : Nat), k = l₁.length → (l₁ ++ l₂).take k = l₁ := by
      intro l₁ l₂ k hk
      subst hk
      rw [List.take_left]
    rw [hA, htake _ _ _ (by simp)]

  · intro m hm hnret
    have hun := fetchLoopAux_unroll env deadline maxRetries n (maxRetries + 1) 0
      (by omega)
      (fun k hk1 hk2 => htime k (by omega))
      (fun k hk1 hk2 => herr k (by omega))
      (by omega)
    have hrem : maxRetries + 1 - n = (maxRetries - n) + 1 := by omega
    have hstep : fetchLoopAux env deadline maxRetries (maxRetries + 1 - n) (0 + n) =
        (.raised m, []) := by
      rw [hrem]
      show fetchLoopAux env deadline maxRetries ((maxRetries - n) + 1) (0 + n) = _
      rw [fetchLoopAux]
      rw [if_neg (by
        have := htime (0 + n) (by omega)
        omega : ¬ (deadline < env.nowAt (0 + n)))]
      have hm' : env.attemptResult (0 + n) = .thrown m := by
        simpa using hm
      rw [hm']
      simp only []
      rw [if_pos (by rw [hnret]; simp : (isNonRetryableMsg m ||
        decide (maxRetries ≤ 0 + n)) = true)]
    constructor
    · rw [sdkFetch, hun.1, hstep]
    · rw [sdkFetch, hun.2, hstep]
      simp only [sleepsOf, List.filterMap_nil, List.append_nil]
      apply List.map_congr_left
      intro i _
      simp

/-- C7 witness: with two transient network failures before success, the
first two sleeps are exactly 1000 ms and 2000 ms. -/
theorem C7_witness :
    (sleepsOf (sdkFetch 3 1000 envF).2).take 2 = (List.range 2).map retryDelay :=
  (C7_backoff_and_nonretryable 3 1000 envF 1
      (fun k _ => by simp [envF])
      (fun k hk => by
        have : k = 0 := by omega
        subst this
        exact ⟨"network error".toList, rfl, by decide⟩)
      (by omega)).1
    ("network error".toList) rfl (by decide) (by omega)

end AgentGate
